import Mathlib

/-!
Verification of the asset storage and path-derivation layer of
`backend/services/file_service.py` (class `FileService`) together with the
file-saving slice of `upload_material` in
`backend/controllers/material_controller.py`.

Modelling choices:

* A filesystem path is a list of components (`FsPath := List String`);
  identifiers (project ids, page ids, template ids) are opaque single
  components, and file contents are opaque strings.
* The filesystem is a record of the configured root (`upload_folder`), the
  set of existing directories, and an association list from regular-file
  paths to their contents.  Directory-listing order (`Path.iterdir`) is the
  order of the `files` list: a fresh file is appended at the end, an
  overwrite keeps its position.
* `mkdir(exist_ok=True, parents=True)` adds the directory and all its
  ancestors; errors on collision with an existing file are not modelled.
* `secure_filename` is performed by `werkzeug` outside this repository, so
  the `filename` field of an `Upload` stands for the already sanitized
  name.
* The wall clock (`int(time.time() * 1000)`) is an explicit `now_ms`
  argument.
* Every service method is a function `... → FS → result × FS`; Python
  exceptions do not occur on any modelled code path (the modelled
  operations are total).
-/

/-- A filesystem path, as its list of components. -/
abbrev FsPath := List String

/-- The filesystem state seen by `FileService`: the configured root
(`self.upload_folder`), the existing directories, and the regular files
with their contents, in directory-listing order. -/
structure FS where
  root : FsPath
  dirs : List FsPath
  files : List (FsPath × String)
deriving Repr, DecidableEq

/-- All prefixes of a path (including the empty path and the path itself):
after `p.mkdir(parents=True)` exactly these ancestors are guaranteed to
exist. -/
def prefixesOf (p : FsPath) : List FsPath :=
  (List.range (p.length + 1)).map (fun i => p.take i)

/-- `p.mkdir(exist_ok=True, parents=True)`: the directory and all its
ancestors exist afterwards; already-existing directories are untouched. -/
def mkdirp (p : FsPath) (fs : FS) : FS :=
  { fs with dirs := prefixesOf p ++ fs.dirs }

/-- Look up the content of the regular file at `p` (first binding wins). -/
def getFile? (p : FsPath) : List (FsPath × String) → Option String
  | [] => none
  | e :: es => if e.1 = p then some e.2 else getFile? p es

/-- Write content `c` at path `p`: an existing file is overwritten in place
(keeping its directory-listing position), a fresh file is appended as the
newest entry. -/
def setFile (p : FsPath) (c : String) : List (FsPath × String) → List (FsPath × String)
  | [] => [(p, c)]
  | e :: es => if e.1 = p then (p, c) :: es else e :: setFile p c es

/-- `Path.is_file()`: the path is bound to a regular file. -/
def isFile (fs : FS) (p : FsPath) : Bool :=
  (getFile? p fs.files).isSome

/-- The path is an existing directory. -/
def isDir (fs : FS) (p : FsPath) : Bool :=
  fs.dirs.contains p

/-- `Path.exists()`: the path is a regular file or a directory. -/
def pathExists (fs : FS) (p : FsPath) : Bool :=
  isFile fs p || isDir fs p

/-- `shutil.rmtree(p)`: remove the directory `p` and everything below it. -/
def rmtree (p : FsPath) (fs : FS) : FS :=
  { fs with
    dirs := fs.dirs.filter (fun d => !(p.isPrefixOf d)),
    files := fs.files.filter (fun e => !(p.isPrefixOf e.1)) }

/-- `PurePath.relative_to(base)` in the always-successful case exercised by
the code, where the path was built as `base / ...` (Python raises on any
other input, which never happens here). -/
def relativeTo (base p : FsPath) : FsPath :=
  p.drop base.length

/-- ASCII lowercasing of one character, modelling `str.lower` on the ASCII
range actually used for extensions and format names. -/
def lowerChar : Char → Char
  | 'A' => 'a' | 'B' => 'b' | 'C' => 'c' | 'D' => 'd' | 'E' => 'e' | 'F' => 'f'
  | 'G' => 'g' | 'H' => 'h' | 'I' => 'i' | 'J' => 'j' | 'K' => 'k' | 'L' => 'l'
  | 'M' => 'm' | 'N' => 'n' | 'O' => 'o' | 'P' => 'p' | 'Q' => 'q' | 'R' => 'r'
  | 'S' => 's' | 'T' => 't' | 'U' => 'u' | 'V' => 'v' | 'W' => 'w' | 'X' => 'x'
  | 'Y' => 'y' | 'Z' => 'z'
  | c => c

/-- `str.lower`. -/
def lowerStr (s : String) : String :=
  ⟨s.data.map lowerChar⟩

/-- Split a character list at its last `'.'`, returning the parts strictly
before and strictly after it; `none` when no dot occurs. -/
def splitLastDot : List Char → Option (List Char × List Char)
  | [] => none
  | c :: cs =>
    match splitLastDot cs with
    | some (b, a) => some (c :: b, a)
    | none => if c = '.' then some ([], cs) else none

/-- `filename.rsplit('.', 1)[1].lower() if '.' in filename else 'png'`, the
extension derivation of `save_template_image` and `save_user_template`. -/
def extOf (name : String) : String :=
  match splitLastDot name.data with
  | some (_, a) => ⟨a.map lowerChar⟩
  | none => "png"

/-- `pathlib.PurePath.stem`: the final component without its last suffix;
the whole name when the last dot is absent, leading, or trailing. -/
def pathStem (name : String) : String :=
  match splitLastDot name.data with
  | some (b, a) => if b ≠ [] ∧ a ≠ [] then ⟨b⟩ else name
  | none => name

/-- `pathlib.PurePath.suffix`: the last dot-extension including the dot;
`""` when the last dot is absent, leading, or trailing. -/
def pathSuffix (name : String) : String :=
  match splitLastDot name.data with
  | some (b, a) => if b ≠ [] ∧ a ≠ [] then ⟨'.' :: a⟩ else ""
  | none => ""

/-- `fnmatch`-style glob matching over one path component, for patterns
built from literal characters, `?` and `*` (the character classes `[...]`,
unused by this code base, are not modelled: `[` is treated literally). -/
def globMatch : List Char → List Char → Bool
  | [], s => s.isEmpty
  | p :: ps, s =>
    if p = '*' then s.tails.any (fun t => globMatch ps t)
    else
      match s with
      | [] => false
      | c :: s' => (p = '?' || p = c) && globMatch ps s'

/-- Glob matching on strings. -/
def globMatchStr (pat s : String) : Bool :=
  globMatch pat.data s.data

/-- A sanitized upload: `filename` stands for
`secure_filename(file.filename)` and `content` for the bytes that
`file.save` writes. -/
structure Upload where
  filename : String
  content : String
deriving Repr, DecidableEq

/-- `FileService._get_project_dir`: `upload_folder / project_id`, created
on demand. -/
def get_project_dir (project_id : String) (fs : FS) : FsPath × FS :=
  let project_dir := fs.root ++ [project_id]
  (project_dir, mkdirp project_dir fs)

/-- `FileService._get_template_dir`: `project_dir / "template"`, created on
demand. -/
def get_template_dir (project_id : String) (fs : FS) : FsPath × FS :=
  let (project_dir, fs1) := get_project_dir project_id fs
  let template_dir := project_dir ++ ["template"]
  (template_dir, mkdirp template_dir fs1)

/-- `FileService._get_pages_dir`: `project_dir / "pages"`, created on
demand. -/
def get_pages_dir (project_id : String) (fs : FS) : FsPath × FS :=
  let (project_dir, fs1) := get_project_dir project_id fs
  let pages_dir := project_dir ++ ["pages"]
  (pages_dir, mkdirp pages_dir fs1)

/-- `FileService.save_template_image`: derive the extension from the
sanitized upload name (default `png`), write `template.<ext>` into the
template directory, return the path relative to the upload folder. -/
def save_template_image (file : Upload) (project_id : String) (fs : FS) : FsPath × FS :=
  let (template_dir, fs1) := get_template_dir project_id fs
  let ext := extOf file.filename
  let filename := "template." ++ ext
  let filepath := template_dir ++ [filename]
  (relativeTo fs.root filepath, { fs1 with files := setFile filepath file.content fs1.files })

/-- `FileService.save_generated_image`: write the PIL image (its bytes
modelled as `image`) under `<page_id>_v<version_number>.<ext>` when a
version number is given, else under `<page_id>_<now_ms>.<ext>`, where
`now_ms` models `int(time.time() * 1000)` and `ext` is the lowercased
format; return the path relative to the upload folder. -/
def save_generated_image (image : String) (project_id : String) (page_id : String)
    (image_format : String) (version_number : Option Int) (now_ms : Nat)
    (fs : FS) : FsPath × FS :=
  let (pages_dir, fs1) := get_pages_dir project_id fs
  let ext := lowerStr image_format
  let filename :=
    match version_number with
    | some v => page_id ++ "_v" ++ toString v ++ "." ++ ext
    | none => page_id ++ "_" ++ toString now_ms ++ "." ++ ext
  let filepath := pages_dir ++ [filename]
  (relativeTo fs.root filepath, { fs1 with files := setFile filepath image fs1.files })

/-- `FileService.delete_page_image_version`: unlink the file at
`upload_folder / image_path` and return `True` when it exists and is a
regular file, else return `False` and change nothing. -/
def delete_page_image_version (image_path : FsPath) (fs : FS) : Bool × FS :=
  let filepath := fs.root ++ image_path
  if pathExists fs filepath && isFile fs filepath then
    (true, { fs with files := fs.files.filter (fun e => decide (e.1 ≠ filepath)) })
  else
    (false, fs)

/-- `FileService.get_file_url`: pure URL composition. -/
def get_file_url (project_id file_type filename : String) : String :=
  "/files/" ++ project_id ++ "/" ++ file_type ++ "/" ++ filename

/-- `FileService.get_absolute_path`: `upload_folder / relative_path`. -/
def get_absolute_path (relative_path : FsPath) (fs : FS) : FsPath :=
  fs.root ++ relative_path

/-- `FileService.delete_template`: unlink every regular file directly in
the template directory (created on demand by `_get_template_dir`), return
`True`. -/
def delete_template (project_id : String) (fs : FS) : Bool × FS :=
  let (template_dir, fs1) := get_template_dir project_id fs
  (true, { fs1 with files := fs1.files.filter (fun e => decide (e.1.dropLast ≠ template_dir)) })

/-- `FileService.delete_page_image`: unlink every regular file in the pages
directory (created on demand by `_get_pages_dir`) whose name matches the
glob `f"{page_id}.*"`, return `True`. -/
def delete_page_image (project_id page_id : String) (fs : FS) : Bool × FS :=
  let (pages_dir, fs1) := get_pages_dir project_id fs
  let keep := fun (e : FsPath × String) =>
    !(decide (e.1.dropLast = pages_dir) &&
      globMatchStr (page_id ++ ".*") (e.1.getLastD ""))
  (true, { fs1 with files := fs1.files.filter keep })

/-- `FileService.delete_project_files`: `shutil.rmtree` the project
directory (created on demand by `_get_project_dir`, hence always existing
at the check), return `True`. -/
def delete_project_files (project_id : String) (fs : FS) : Bool × FS :=
  let (project_dir, fs1) := get_project_dir project_id fs
  (true, if pathExists fs1 project_dir then rmtree project_dir fs1 else fs1)

/-- `FileService.file_exists`: the path relative to the upload folder
exists and is a regular file. -/
def file_exists (relative_path : FsPath) (fs : FS) : Bool × FS :=
  let filepath := fs.root ++ relative_path
  (pathExists fs filepath && isFile fs filepath, fs)

/-- The `for file in template_dir.iterdir(): if file.is_file() and
file.stem == 'template': return str(file)` loop of `get_template_path`:
scan the files in directory-listing order for the first regular file
directly in `template_dir` whose stem is `template`. -/
def findTemplateFile (template_dir : FsPath) : List (FsPath × String) → Option FsPath
  | [] => none
  | e :: es =>
    if e.1.dropLast = template_dir ∧ pathStem (e.1.getLastD "") = "template" then some e.1
    else findTemplateFile template_dir es

/-- `FileService.get_template_path`: absolute path of the first regular
file with stem `template` in the template directory (created on demand by
`_get_template_dir`), or `None`. -/
def get_template_path (project_id : String) (fs : FS) : Option FsPath × FS :=
  let (template_dir, fs1) := get_template_dir project_id fs
  (findTemplateFile template_dir fs1.files, fs1)

/-- `FileService._get_user_templates_dir`: `upload_folder /
"user-templates"`, created on demand. -/
def get_user_templates_dir (fs : FS) : FsPath × FS :=
  let templates_dir := fs.root ++ ["user-templates"]
  (templates_dir, mkdirp templates_dir fs)

/-- `FileService.save_user_template`: same naming and overwrite rule as
`save_template_image`, scoped to `user-templates/<template_id>/`. -/
def save_user_template (file : Upload) (template_id : String) (fs : FS) : FsPath × FS :=
  let (templates_dir, fs1) := get_user_templates_dir fs
  let template_dir := templates_dir ++ [template_id]
  let fs2 := mkdirp template_dir fs1
  let ext := extOf file.filename
  let filename := "template." ++ ext
  let filepath := template_dir ++ [filename]
  (relativeTo fs.root filepath, { fs2 with files := setFile filepath file.content fs2.files })

/-- `FileService.delete_user_template`: `shutil.rmtree` the template id's
subtree if it exists, return `True`. -/
def delete_user_template (template_id : String) (fs : FS) : Bool × FS :=
  let (templates_dir, fs1) := get_user_templates_dir fs
  let template_dir := templates_dir ++ [template_id]
  (true, if pathExists fs1 template_dir then rmtree template_dir fs1 else fs1)

/-- Modelled from the spec: `FileService._get_materials_dir` is called by
`upload_material` in `material_controller.py` but is missing from the copy
of `file_service.py` under verification; spec §4.1 fixes it as
`projectDir/materials`, created on demand. -/
def get_materials_dir (project_id : String) (fs : FS) : FsPath × FS :=
  let (project_dir, fs1) := get_project_dir project_id fs
  let materials_dir := project_dir ++ ["materials"]
  (materials_dir, mkdirp materials_dir fs1)

/-- The file-saving slice of `upload_material` in
`material_controller.py` (lines 211-231): pick the project materials
directory when a project id is given (else the global `materials`
directory), build `<stem>_<now_ms><suffix.lower()>` from the sanitized
upload name, write the upload there, and return the path relative to the
upload folder. -/
def upload_material (target_project_id : Option String) (file : Upload)
    (now_ms : Nat) (fs : FS) : FsPath × FS :=
  let (materials_dir, fs1) :=
    match target_project_id with
    | some pid => get_materials_dir pid fs
    | none =>
      let d := fs.root ++ ["materials"]
      (d, mkdirp d fs)
  let file_ext := lowerStr (pathSuffix file.filename)
  let base_name := pathStem file.filename
  let unique_filename := base_name ++ "_" ++ toString now_ms ++ file_ext
  let filepath := materials_dir ++ [unique_filename]
  (relativeTo fs.root filepath, { fs1 with files := setFile filepath file.content fs1.files })

/-! ## General lemmas about the filesystem model -/

theorem getFile?_setFile (q p : FsPath) (c : String) (l : List (FsPath × String)) :
    getFile? q (setFile p c l) = if q = p then some c else getFile? q l := by
  induction l with
  | nil =>
    by_cases h : q = p
    · subst h; simp [setFile, getFile?]
    · simp [setFile, getFile?, h, Ne.symm h]
  | cons e es ih =>
    by_cases he : e.1 = p
    · subst he
      by_cases hq : q = e.1
      · subst hq; simp [setFile, getFile?]
      · simp [setFile, getFile?, hq, Ne.symm hq]
    · by_cases hq : q = p
      · subst hq; simp [setFile, getFile?, he, ih]
      · simp [setFile, getFile?, he, hq, ih]

theorem getFile?_filterKey (q : FsPath → Bool) (p : FsPath) (l : List (FsPath × String)) :
    getFile? p (l.filter (fun e => q e.1)) = if q p then getFile? p l else none := by
  induction l with
  | nil => by_cases h : q p <;> simp [getFile?, h]
  | cons e es ih =>
    by_cases he : q e.1
    · by_cases hp : e.1 = p
      · subst hp; simp [getFile?, he]
      · simp [getFile?, he, hp, ih]
    · by_cases hp : e.1 = p
      · subst hp
        simp only [Bool.not_eq_true] at he
        simp [getFile?, he, ih]
      · simp [getFile?, he, hp, ih]

theorem mem_prefixesOf (d p : FsPath) : d ∈ prefixesOf p ↔ d <+: p := by
  simp only [prefixesOf, List.mem_map, List.mem_range]
  constructor
  · rintro ⟨i, _, rfl⟩
    exact ⟨p.drop i, List.take_append_drop i p⟩
  · intro h
    refine ⟨d.length, Nat.lt_succ_of_le h.length_le, ?_⟩
    exact (List.prefix_iff_eq_take.mp h).symm

theorem contains_of_mem {a : List String} {l : List (List String)} (h : a ∈ l) :
    l.contains a = true := by
  simpa [List.contains] using List.elem_iff.mpr h

theorem isDir_mkdirp (p : FsPath) (fs : FS) : isDir (mkdirp p fs) p = true := by
  refine contains_of_mem ?_
  simp only [mkdirp, List.mem_append]
  exact Or.inl ((mem_prefixesOf p p).mpr ⟨[], by simp⟩)

theorem pathExists_mkdirp (p : FsPath) (fs : FS) : pathExists (mkdirp p fs) p = true := by
  have h := isDir_mkdirp p fs
  simp [pathExists, h]

/-! ## Lemmas about name splitting, lowercasing and glob matching -/

theorem splitLastDot_of_not_mem {cs : List Char} (h : '.' ∉ cs) :
    splitLastDot cs = none := by
  induction cs with
  | nil => rfl
  | cons c cs ih =>
    have hc : ¬ c = '.' := fun hh => h (hh ▸ List.mem_cons_self c cs)
    have hcs : '.' ∉ cs := fun hh => h (List.mem_cons_of_mem c hh)
    simp [splitLastDot, ih hcs, hc]

theorem not_mem_of_splitLastDot_none {cs : List Char} (h : splitLastDot cs = none) :
    '.' ∉ cs := by
  induction cs with
  | nil => simp
  | cons c cs ih =>
    simp only [splitLastDot] at h
    rcases hcs : splitLastDot cs with _ | ⟨b, a⟩
    · rw [hcs] at h
      simp only at h
      have hc : ¬ c = '.' := by
        intro hh; rw [if_pos hh] at h; exact Option.noConfusion h
      intro hmem
      rcases List.mem_cons.mp hmem with h1 | h2
      · exact hc h1.symm
      · exact ih hcs h2
    · rw [hcs] at h; exact Option.noConfusion h

theorem splitLastDot_append_dot {xs ys : List Char} (h : '.' ∉ ys) :
    splitLastDot (xs ++ '.' :: ys) = some (xs, ys) := by
  induction xs with
  | nil => simp [splitLastDot, splitLastDot_of_not_mem h]
  | cons x xs ih => simp [splitLastDot, ih]

theorem splitLastDot_suffix_not_mem {cs b a : List Char}
    (h : splitLastDot cs = some (b, a)) : '.' ∉ a := by
  induction cs generalizing b a with
  | nil => exact absurd h (by simp [splitLastDot])
  | cons c cs ih =>
    simp only [splitLastDot] at h
    rcases hcs : splitLastDot cs with _ | ⟨b', a'⟩
    · rw [hcs] at h
      simp only at h
      by_cases hc : c = '.'
      · rw [if_pos hc] at h
        obtain ⟨-, rfl⟩ : [] = b ∧ cs = a := by simpa using h
        exact not_mem_of_splitLastDot_none hcs
      · rw [if_neg hc] at h; exact Option.noConfusion h
    · rw [hcs] at h
      obtain ⟨-, rfl⟩ : c :: b' = b ∧ a' = a := by simpa using h
      exact ih hcs

theorem lowerChar_ne_dot {c : Char} (h : c ≠ '.') : lowerChar c ≠ '.' := by
  unfold lowerChar
  split <;> first | decide | exact h

theorem not_mem_dot_map_lowerChar {a : List Char} (h : '.' ∉ a) :
    '.' ∉ a.map lowerChar := by
  intro hmem
  obtain ⟨c, hc, hlc⟩ := List.mem_map.mp hmem
  exact lowerChar_ne_dot (fun hh => h (hh ▸ hc)) hlc

theorem extOf_not_dot (name : String) : '.' ∉ (extOf name).data := by
  unfold extOf
  rcases h : splitLastDot name.data with _ | ⟨b, a⟩
  · simp only []
    decide
  · simp only []
    exact not_mem_dot_map_lowerChar (splitLastDot_suffix_not_mem h)

theorem data_ne_nil_of_ne_empty {s : String} (h : s ≠ "") : s.data ≠ [] := by
  intro hd
  exact h (String.ext_iff.mpr (by simp [hd]))

theorem pathStem_template_ext {ext : String} (h1 : ext ≠ "")
    (h2 : '.' ∉ ext.data) : pathStem ("template." ++ ext) = "template" := by
  have hdata : ("template." ++ ext).data = "template".data ++ '.' :: ext.data := by
    rw [String.data_append]; rfl
  unfold pathStem
  rw [hdata, splitLastDot_append_dot h2]
  simp only []
  rw [if_pos ⟨by decide, data_ne_nil_of_ne_empty h1⟩]

theorem pathSuffix_template_ext {ext : String} (h1 : ext ≠ "")
    (h2 : '.' ∉ ext.data) : pathSuffix ("template." ++ ext) = "." ++ ext := by
  have hdata : ("template." ++ ext).data = "template".data ++ '.' :: ext.data := by
    rw [String.data_append]; rfl
  unfold pathSuffix
  rw [hdata, splitLastDot_append_dot h2]
  simp only []
  rw [if_pos ⟨by decide, data_ne_nil_of_ne_empty h1⟩]
  exact String.ext_iff.mpr (by rw [String.data_append]; rfl)

theorem globMatch_cons_lit {c : Char} (h1 : c ≠ '*') (h2 : c ≠ '?')
    (ps s : List Char) :
    globMatch (c :: ps) s =
      match s with
      | [] => false
      | d :: s' => (c = d) && globMatch ps s' := by
  cases s with
  | nil => simp [globMatch, h1]
  | cons d s' => simp [globMatch, h1, h2]

theorem globMatch_shared_lit {lit : List Char}
    (h : ∀ c ∈ lit, c ≠ '*' ∧ c ≠ '?') (ps s : List Char) :
    globMatch (lit ++ ps) (lit ++ s) = globMatch ps s := by
  induction lit with
  | nil => rfl
  | cons c cs ih =>
    have hc := h c (List.mem_cons_self c cs)
    have hcs : ∀ d ∈ cs, d ≠ '*' ∧ d ≠ '?' :=
      fun d hd => h d (List.mem_cons_of_mem c hd)
    rw [List.cons_append, List.cons_append, globMatch_cons_lit hc.1 hc.2]
    simp [ih hcs]

theorem globMatch_dotstar_underscore (lit rest : List Char)
    (h : ∀ c ∈ lit, c ≠ '*' ∧ c ≠ '?') :
    globMatch (lit ++ ('.' :: '*' :: [])) (lit ++ ('_' :: rest)) = false := by
  rw [globMatch_shared_lit h]
  rw [globMatch_cons_lit (by decide) (by decide)]
  simp

/-! ## Lemmas about the template-file scan -/

theorem findTemplateFile_parentDir {template_dir : FsPath}
    {l : List (FsPath × String)} {p : FsPath}
    (h : findTemplateFile template_dir l = some p) : p.dropLast = template_dir := by
  induction l with
  | nil => exact absurd h (by simp [findTemplateFile])
  | cons e es ih =>
    by_cases hc : e.1.dropLast = template_dir ∧ pathStem (e.1.getLastD "") = "template"
    · rw [findTemplateFile, if_pos hc] at h
      cases h
      exact hc.1
    · rw [findTemplateFile, if_neg hc] at h
      exact ih h

theorem findTemplateFile_setFile (template_dir : FsPath) (fname : String)
    (c : String) (l : List (FsPath × String))
    (hstem : pathStem fname = "template")
    (hclean : ∀ e ∈ l, e.1.dropLast = template_dir →
      pathStem (e.1.getLastD "") = "template" → e.1 = template_dir ++ [fname]) :
    findTemplateFile template_dir (setFile (template_dir ++ [fname]) c l) =
      some (template_dir ++ [fname]) := by
  have hcond : (template_dir ++ [fname]).dropLast = template_dir ∧
      pathStem ((template_dir ++ [fname]).getLastD "") = "template" := by
    constructor
    · exact List.dropLast_concat
    · rw [List.getLastD_concat]; exact hstem
  induction l with
  | nil => simp [setFile, findTemplateFile, hcond, hstem]
  | cons e es ih =>
    by_cases he : e.1 = template_dir ++ [fname]
    · simp [setFile, he, findTemplateFile, hcond, hstem]
    · rw [setFile, if_neg he, findTemplateFile]
      rw [if_neg ?hne]
      case hne =>
        intro hc
        exact he (hclean e (List.mem_cons_self e es) hc.1 hc.2)
      exact ih (fun e' he' => hclean e' (List.mem_cons_of_mem e he'))

/-! ## Small facts about existence checks -/

theorem file_exists_fst (rel : FsPath) (fs : FS) :
    (file_exists rel fs).1 = isFile fs (fs.root ++ rel) := by
  unfold file_exists pathExists
  cases h1 : isFile fs (fs.root ++ rel) <;>
    cases h2 : isDir fs (fs.root ++ rel) <;> simp [h1, h2]

/-! ## Claim theorems -/

/-- Claim C1: for every project id, page id, image, format string and
clock value, `save_generated_image` with a version number `n` returns the
relative path `[project_id, "pages", page_id ++ "_v" ++ n ++ "." ++
lower(format)]`, and with no version number the relative path
`[project_id, "pages", page_id ++ "_" ++ now_ms ++ "." ++ lower(format)]`,
where `now_ms` is the current epoch time in milliseconds. -/
theorem claim1_generated_image_naming (fs : FS) (image project_id page_id image_format : String)
    (n : Int) (now_ms : Nat) :
    (save_generated_image image project_id page_id image_format (some n) now_ms fs).1
        = [project_id, "pages", page_id ++ "_v" ++ toString n ++ "." ++ lowerStr image_format] ∧
    (save_generated_image image project_id page_id image_format none now_ms fs).1
        = [project_id, "pages", page_id ++ "_" ++ toString now_ms ++ "." ++ lowerStr image_format] := by
  constructor <;>
    simp [save_generated_image, get_pages_dir, get_project_dir, mkdirp, relativeTo,
      List.append_assoc]

/-- Claim C2, counterexample: with a version file `page1_v3.png` already
present with content `"old"`, calling `save_generated_image` again with
version number 3 leaves the file with the new content, not the old one: the
operation does overwrite an existing version file with the same
disambiguator. -/
theorem claim2_counterexample :
    getFile? ["p", "pages", "page1_v3.png"]
        ((save_generated_image "new" "p" "page1" "PNG" (some 3) 0
          (FS.mk [] [] [(["p", "pages", "page1_v3.png"], "old")])).2).files
      = some "new" ∧ ("new" : String) ≠ "old" := by
  constructor
  · decide
  · decide

/-- Claim C2, amended: calling `save_generated_image` again with the same
disambiguator overwrites exactly that version file (its content becomes the
new image) and leaves every other file unchanged. -/
theorem claim2_same_version_overwrites (fs : FS)
    (image project_id page_id image_format : String) (v : Int) (now_ms : Nat) :
    ∀ q, getFile? q ((save_generated_image image project_id page_id image_format
        (some v) now_ms fs).2).files =
      if q = fs.root ++ [project_id, "pages",
          page_id ++ "_v" ++ toString v ++ "." ++ lowerStr image_format] then some image
      else getFile? q fs.files := by
  intro q
  simp [save_generated_image, get_pages_dir, get_project_dir, mkdirp,
    getFile?_setFile, List.append_assoc]

/-- Claim C5: saving a template twice, the second write overwrites the
first exactly when both uploads derive the same extension; with two
different extensions both `template.<ext1>` and `template.<ext2>` end up
present (with their respective contents) and every other file is
unchanged, so no further file is created. -/
theorem claim5_template_double_save (fs : FS) (f1 f2 : Upload) (project_id : String) :
    ∀ q, getFile? q ((save_template_image f2 project_id
        (save_template_image f1 project_id fs).2).2).files =
      if q = fs.root ++ [project_id, "template", "template." ++ extOf f2.filename] then
        some f2.content
      else if q = fs.root ++ [project_id, "template", "template." ++ extOf f1.filename] then
        some f1.content
      else getFile? q fs.files := by
  intro q
  simp [save_template_image, get_template_dir, get_project_dir, mkdirp,
    getFile?_setFile, List.append_assoc]

/-- Claim C10: the bulk delete operations `delete_template`,
`delete_page_image`, `delete_project_files` and `delete_user_template`
return `True` unconditionally, whatever the filesystem state — in
particular also when the targeted directory is empty or no matching file
existed. -/
theorem claim10_deletes_return_true (fs : FS) (project_id page_id template_id : String) :
    (delete_template project_id fs).1 = true ∧
    (delete_page_image project_id page_id fs).1 = true ∧
    (delete_project_files project_id fs).1 = true ∧
    (delete_user_template template_id fs).1 = true :=
  ⟨rfl, rfl, rfl, rfl⟩

theorem getFile?_rmtree (p q : FsPath) (fs : FS) :
    getFile? q (rmtree p fs).files =
      if p.isPrefixOf q = true then none else getFile? q fs.files := by
  have h2 := getFile?_filterKey (fun x => !(p.isPrefixOf x)) q fs.files
  cases hp : p.isPrefixOf q with
  | true => simpa [rmtree, hp] using h2
  | false => simpa [rmtree, hp] using h2

theorem getFile?_delete_page_image (fs : FS) (project_id page_id : String) (q : FsPath) :
    getFile? q (delete_page_image project_id page_id fs).2.files =
      if q.dropLast = (fs.root ++ [project_id]) ++ ["pages"] ∧
          globMatchStr (page_id ++ ".*") (q.getLastD "") = true then none
      else getFile? q fs.files := by
  show getFile? q (fs.files.filter (fun e =>
      !(decide (e.1.dropLast = (fs.root ++ [project_id]) ++ ["pages"]) &&
        globMatchStr (page_id ++ ".*") (e.1.getLastD "")))) = _
  have h2 := getFile?_filterKey (fun x =>
      !(decide (x.dropLast = (fs.root ++ [project_id]) ++ ["pages"]) &&
        globMatchStr (page_id ++ ".*") (x.getLastD ""))) q fs.files
  by_cases hc : q.dropLast = (fs.root ++ [project_id]) ++ ["pages"] ∧
      globMatchStr (page_id ++ ".*") (q.getLastD "") = true
  · rw [if_pos hc]
    have hb : (!(decide (q.dropLast = (fs.root ++ [project_id]) ++ ["pages"]) &&
        globMatchStr (page_id ++ ".*") (q.getLastD ""))) = false := by
      rw [decide_eq_true hc.1, hc.2]
      rfl
    rw [hb] at h2
    simpa using h2
  · rw [if_neg hc]
    have hb : (!(decide (q.dropLast = (fs.root ++ [project_id]) ++ ["pages"]) &&
        globMatchStr (page_id ++ ".*") (q.getLastD ""))) = true := by
      by_cases hA : q.dropLast = (fs.root ++ [project_id]) ++ ["pages"]
      · have hG : globMatchStr (page_id ++ ".*") (q.getLastD "") = false := by
          cases hgb : globMatchStr (page_id ++ ".*") (q.getLastD "") with
          | true => exact absurd ⟨hA, hgb⟩ hc
          | false => rfl
        rw [hG, Bool.and_false]
        rfl
      · rw [decide_eq_false hA]
        rfl
    rw [hb] at h2
    simpa using h2

/-- Claim C3, counterexample: the claim quantifies over every page id, but
for a page id containing the glob metacharacter `*` the pattern
`f"{page_id}.*"` does match names of the versioned scheme: with page id
`"*"`, the versioned file `*_v1.png` (that is, `<pageId>_v1.png`) is
deleted by `delete_page_image`, not left untouched. -/
theorem claim3_counterexample :
    getFile? ["p", "pages", "*_v1.png"]
        (delete_page_image "p" "*"
          (FS.mk [] [] [(["p", "pages", "*_v1.png"], "img")])).2.files = none ∧
    getFile? ["p", "pages", "*_v1.png"]
        (FS.mk [] [] [(["p", "pages", "*_v1.png"], "img")]).files = some "img" := by
  constructor
  · decide
  · decide

/-- Claim C3, amended: for page ids free of glob metacharacters (`*`, `?`,
`[`), `delete_page_image` returns `True`, removes exactly the regular files
of the pages directory whose names match the glob `<pageId>.*`, and in
particular leaves untouched every file named `<pageId>_<tail>` — which
covers both versioned schemes `<pageId>_v<N>.<ext>` and
`<pageId>_<timestampMs>.<ext>` produced by `save_generated_image`. -/
theorem claim3_delete_matches_glob (fs : FS) (project_id page_id : String)
    (hmeta : ∀ c ∈ page_id.data, c ≠ '*' ∧ c ≠ '?' ∧ c ≠ '[') :
    ((delete_page_image project_id page_id fs).1 = true) ∧
    (∀ q, getFile? q (delete_page_image project_id page_id fs).2.files =
        if q.dropLast = (fs.root ++ [project_id]) ++ ["pages"] ∧
            globMatchStr (page_id ++ ".*") (q.getLastD "") = true then none
        else getFile? q fs.files) ∧
    (∀ tail, getFile? ((fs.root ++ [project_id]) ++ ["pages"] ++ [page_id ++ "_" ++ tail])
        (delete_page_image project_id page_id fs).2.files =
      getFile? ((fs.root ++ [project_id]) ++ ["pages"] ++ [page_id ++ "_" ++ tail]) fs.files) := by
  refine ⟨rfl, fun q => getFile?_delete_page_image fs project_id page_id q, ?_⟩
  intro tail
  rw [getFile?_delete_page_image]
  rw [if_neg ?hno]
  case hno =>
    rintro ⟨-, hglob⟩
    rw [List.getLastD_concat] at hglob
    have hdata : globMatchStr (page_id ++ ".*") (page_id ++ "_" ++ tail)
        = globMatch (page_id.data ++ ('.' :: '*' :: []))
            (page_id.data ++ ('_' :: tail.data)) := by
      unfold globMatchStr
      rw [String.data_append, String.data_append, String.data_append, List.append_assoc]
      rfl
    rw [hdata, globMatch_dotstar_underscore page_id.data tail.data
      (fun c hcmem => ⟨(hmeta c hcmem).1, (hmeta c hcmem).2.1⟩)] at hglob
    exact Bool.noConfusion hglob

/-- Claim C3, witness for the amended claim: with page id `page1` and both
`page1.png` and `page1_v3.png` present, `delete_page_image` leaves the
versioned file `page1_v3.png` (content `"b"`) untouched. -/
theorem claim3_witness :
    getFile? (((FS.mk [] [] [(["p", "pages", "page1.png"], "a"),
          (["p", "pages", "page1_v3.png"], "b")] : FS).root ++ ["p"]) ++ ["pages"]
        ++ ["page1" ++ "_" ++ "v3.png"])
      (delete_page_image "p" "page1"
        (FS.mk [] [] [(["p", "pages", "page1.png"], "a"),
          (["p", "pages", "page1_v3.png"], "b")])).2.files = some "b" := by
  have h := (claim3_delete_matches_glob
      (FS.mk [] [] [(["p", "pages", "page1.png"], "a"),
        (["p", "pages", "page1_v3.png"], "b")])
      "p" "page1" (by decide)).2.2 "v3.png"
  exact h.trans (by decide)

theorem delete_page_image_version_eq (fs : FS) (p : FsPath) :
    delete_page_image_version p fs =
      if isFile fs (fs.root ++ p) = true then
        (true, { fs with files := fs.files.filter (fun e => decide (e.1 ≠ fs.root ++ p)) })
      else (false, fs) := by
  have hcond : (pathExists fs (fs.root ++ p) && isFile fs (fs.root ++ p))
      = isFile fs (fs.root ++ p) := by
    unfold pathExists
    cases isFile fs (fs.root ++ p) <;> cases isDir fs (fs.root ++ p) <;> rfl
  show (if (pathExists fs (fs.root ++ p) && isFile fs (fs.root ++ p)) = true then
      ((true, { fs with files := fs.files.filter (fun e => decide (e.1 ≠ fs.root ++ p)) })
        : Bool × FS)
    else (false, fs)) = _
  rw [hcond]

theorem getFile?_erase_self (fs : FS) (p : FsPath) :
    ∀ q, getFile? q (fs.files.filter (fun e => decide (e.1 ≠ fs.root ++ p)))
      = if q = fs.root ++ p then none else getFile? q fs.files := by
  intro q
  have h2 := getFile?_filterKey (fun x => decide (x ≠ fs.root ++ p)) q fs.files
  by_cases hq : q = fs.root ++ p
  · subst hq
    rw [if_pos rfl]
    simpa using h2
  · rw [if_neg hq]
    simpa [hq] using h2

/-- Claim C6: `delete_page_image_version` returns `True` exactly when the
relative path names an existing regular file under the root; it then
removes exactly that file; otherwise it returns `False` and leaves the
state unchanged; directories are never touched, and a second call on the
same path returns `False` (idempotence). -/
theorem claim6_delete_version (fs : FS) (p : FsPath) :
    ((delete_page_image_version p fs).1 = isFile fs (fs.root ++ p)) ∧
    (isFile fs (fs.root ++ p) = false → (delete_page_image_version p fs).2 = fs) ∧
    (∀ q, getFile? q (delete_page_image_version p fs).2.files =
        if q = fs.root ++ p then none else getFile? q fs.files) ∧
    ((delete_page_image_version p fs).2.dirs = fs.dirs) ∧
    ((delete_page_image_version p (delete_page_image_version p fs).2).1 = false) := by
  cases hf : isFile fs (fs.root ++ p) with
  | false =>
    have hop : delete_page_image_version p fs = (false, fs) := by
      rw [delete_page_image_version_eq, hf]
      rfl
    have hnone : getFile? (fs.root ++ p) fs.files = none := by
      unfold isFile at hf
      cases hg : getFile? (fs.root ++ p) fs.files with
      | none => rfl
      | some c => rw [hg] at hf; exact Bool.noConfusion hf
    refine ⟨by rw [hop], fun _ => by rw [hop], ?_, by rw [hop], ?_⟩
    · intro q
      rw [hop]
      by_cases hq : q = fs.root ++ p
      · subst hq; rw [if_pos rfl]; exact hnone
      · rw [if_neg hq]
    · rw [hop]
      show (delete_page_image_version p fs).1 = false
      rw [hop]
  | true =>
    have hop : delete_page_image_version p fs =
        (true, { fs with files := fs.files.filter (fun e => decide (e.1 ≠ fs.root ++ p)) }) := by
      rw [delete_page_image_version_eq, hf]
      rfl
    refine ⟨by rw [hop], fun hcontra => Bool.noConfusion hcontra,
      ?_, by rw [hop], ?_⟩
    · intro q
      rw [hop]
      exact getFile?_erase_self fs p q
    · rw [hop]
      rw [delete_page_image_version_eq]
      have hn : isFile { fs with files := fs.files.filter (fun e => decide (e.1 ≠ fs.root ++ p)) }
          (({ fs with files := fs.files.filter (fun e => decide (e.1 ≠ fs.root ++ p)) } : FS).root
            ++ p) = false := by
        unfold isFile
        have := getFile?_erase_self fs p (fs.root ++ p)
        rw [if_pos rfl] at this
        show (getFile? (fs.root ++ p)
          (fs.files.filter (fun e => decide (e.1 ≠ fs.root ++ p)))).isSome = false
        rw [this]
        rfl
      rw [hn]
      rfl

/-- Claim C6, witness: on the empty filesystem, `["x"]` names no regular
file, and `delete_page_image_version` leaves the state unchanged. -/
theorem claim6_witness :
    isFile (FS.mk [] [] []) ((FS.mk [] [] [] : FS).root ++ ["x"]) = false ∧
    (delete_page_image_version ["x"] (FS.mk [] [] [])).2 = FS.mk [] [] [] :=
  ⟨by decide, (claim6_delete_version (FS.mk [] [] []) ["x"]).2.1 (by decide)⟩

/-- Claim C7: `delete_project_files` returns `True` (also when the subtree
did not exist beforehand — the project directory is even created on demand
just before removal), and afterwards no file remains anywhere under the
project's subtree, so `file_exists` is `False` for every relative path
lying under that project. -/
theorem claim7_delete_project_files (fs : FS) (project_id : String) :
    ((delete_project_files project_id fs).1 = true) ∧
    (∀ rest, getFile? (fs.root ++ project_id :: rest)
        (delete_project_files project_id fs).2.files = none) ∧
    (∀ rest, (file_exists (project_id :: rest)
        (delete_project_files project_id fs).2).1 = false) := by
  have hex : pathExists (mkdirp (fs.root ++ [project_id]) fs) (fs.root ++ [project_id]) = true :=
    pathExists_mkdirp _ _
  have hop : (delete_project_files project_id fs).2
      = rmtree (fs.root ++ [project_id]) (mkdirp (fs.root ++ [project_id]) fs) := by
    show (if pathExists (mkdirp (fs.root ++ [project_id]) fs) (fs.root ++ [project_id]) = true
        then rmtree (fs.root ++ [project_id]) (mkdirp (fs.root ++ [project_id]) fs)
        else mkdirp (fs.root ++ [project_id]) fs) = _
    rw [hex]
    rfl
  have hpre : ∀ rest : FsPath,
      (fs.root ++ [project_id]).isPrefixOf (fs.root ++ project_id :: rest) = true := by
    intro rest
    apply List.isPrefixOf_iff_prefix.mpr
    exact ⟨rest, by simp⟩
  refine ⟨rfl, ?_, ?_⟩
  · intro rest
    rw [hop, getFile?_rmtree, if_pos (hpre rest)]
  · intro rest
    rw [file_exists_fst]
    have hroot : (delete_project_files project_id fs).2.root = fs.root := by
      rw [hop]
      rfl
    rw [hroot, hop]
    unfold isFile
    rw [getFile?_rmtree, if_pos (hpre rest)]
    rfl

/-- Claim C4, counterexample: the claim quantifies over every starting
state, but when the template directory already holds a template under a
different extension (`template.jpg`, listed first by `iterdir`), saving a
`.png` upload and then calling `get_template_path` returns the old
`template.jpg`, whose extension differs from the one derived from the
upload. -/
theorem claim4_counterexample :
    (get_template_path "p" (save_template_image (Upload.mk "new.png" "new") "p"
        (FS.mk [] [] [(["p", "template", "template.jpg"], "old")])).2).1
      = some ["p", "template", "template.jpg"] ∧
    pathSuffix "template.jpg" ≠ "." ++ extOf "new.png" := by
  constructor
  · decide
  · decide

/-- Claim C4, amended: provided the derived extension is nonempty (the
sanitized name does not end in a dot — guaranteed by sanitization) and the
template directory holds no file with stem `template` other than possibly
`template.<derived ext>` itself, `save_template_image` followed by
`get_template_path` returns a non-none path whose stem is `template` and
whose extension is the one derived from the upload. -/
theorem claim4_template_roundtrip (fs : FS) (f : Upload) (project_id : String)
    (hext : extOf f.filename ≠ "")
    (hclean : ∀ e ∈ fs.files,
      e.1.dropLast = (fs.root ++ [project_id]) ++ ["template"] →
      pathStem (e.1.getLastD "") = "template" →
      e.1 = (fs.root ++ [project_id]) ++ ["template"] ++ ["template." ++ extOf f.filename]) :
    (get_template_path project_id (save_template_image f project_id fs).2).1
        = some ((fs.root ++ [project_id]) ++ ["template"] ++ ["template." ++ extOf f.filename]) ∧
    pathStem ("template." ++ extOf f.filename) = "template" ∧
    pathSuffix ("template." ++ extOf f.filename) = "." ++ extOf f.filename := by
  have hnodot := extOf_not_dot f.filename
  have hstem := pathStem_template_ext hext hnodot
  have hsuffix := pathSuffix_template_ext hext hnodot
  refine ⟨?_, hstem, hsuffix⟩
  show findTemplateFile ((fs.root ++ [project_id]) ++ ["template"])
      (setFile ((fs.root ++ [project_id]) ++ ["template"] ++ ["template." ++ extOf f.filename])
        f.content fs.files) = _
  exact findTemplateFile_setFile _ _ f.content fs.files hstem hclean

/-- Claim C4, witness for the amended claim: on the empty filesystem, after
saving `photo.PNG` the template path is found and carries extension
`png`. -/
theorem claim4_witness :
    extOf "photo.PNG" ≠ "" ∧
    (get_template_path "p" (save_template_image (Upload.mk "photo.PNG" "d") "p"
        (FS.mk [] [] [])).2).1
      = some (((FS.mk [] [] [] : FS).root ++ ["p"]) ++ ["template"]
          ++ ["template." ++ extOf (Upload.mk "photo.PNG" "d").filename]) := by
  refine ⟨by decide, ?_⟩
  exact (claim4_template_roundtrip (FS.mk [] [] []) (Upload.mk "photo.PNG" "d") "p"
    (by decide) (by simp)).1

/-- Claim C8: each save operation (`save_template_image`,
`save_generated_image`, `save_user_template`, and the material upload
path) returns a root-relative path: re-anchoring the returned path at the
configured root locates exactly the file just written; `get_absolute_path`
is plain root-prefixing, and the absolute path returned by
`get_template_path` always carries the root as a prefix. -/
theorem claim8_relative_paths (fs : FS) (f : Upload)
    (project_id page_id template_id image_format image : String)
    (version_number : Option Int) (now_ms : Nat) (target_project_id : Option String)
    (rel : FsPath) :
    (getFile? (fs.root ++ (save_template_image f project_id fs).1)
        (save_template_image f project_id fs).2.files = some f.content) ∧
    (getFile? (fs.root ++ (save_generated_image image project_id page_id image_format
          version_number now_ms fs).1)
        (save_generated_image image project_id page_id image_format
          version_number now_ms fs).2.files = some image) ∧
    (getFile? (fs.root ++ (save_user_template f template_id fs).1)
        (save_user_template f template_id fs).2.files = some f.content) ∧
    (getFile? (fs.root ++ (upload_material target_project_id f now_ms fs).1)
        (upload_material target_project_id f now_ms fs).2.files = some f.content) ∧
    (get_absolute_path rel fs = fs.root ++ rel) ∧
    (Option.all (fun q => fs.root.isPrefixOf q) (get_template_path project_id fs).1 = true) := by
  refine ⟨?_, ?_, ?_, ?_, rfl, ?_⟩
  · simp [save_template_image, get_template_dir, get_project_dir, mkdirp, relativeTo,
      getFile?_setFile, List.append_assoc, List.drop_left]
  · cases version_number <;>
      simp [save_generated_image, get_pages_dir, get_project_dir, mkdirp, relativeTo,
        getFile?_setFile, List.append_assoc, List.drop_left]
  · simp [save_user_template, get_user_templates_dir, mkdirp, relativeTo,
      getFile?_setFile, List.append_assoc, List.drop_left]
  · cases target_project_id <;>
      simp [upload_material, get_materials_dir, get_project_dir, mkdirp, relativeTo,
        getFile?_setFile, List.append_assoc, List.drop_left]
  · cases hres : (get_template_path project_id fs).1 with
    | none => rfl
    | some q =>
      have hfind : findTemplateFile ((fs.root ++ [project_id]) ++ ["template"]) fs.files
          = some q := hres
      have hpar := findTemplateFile_parentDir hfind
      have hq : q ≠ [] := by
        intro h0
        rw [h0] at hpar
        simp at hpar
      have hform : q = ((fs.root ++ [project_id]) ++ ["template"]) ++ [q.getLast hq] := by
        conv_lhs => rw [← List.dropLast_append_getLast hq]
        rw [hpar]
      show (fs.root.isPrefixOf q) = true
      apply List.isPrefixOf_iff_prefix.mpr
      rw [hform]
      exact ⟨[project_id] ++ (["template"] ++ [q.getLast hq]), by simp⟩

theorem mem_two_mkdirp (fs : FS) (p : FsPath) (x : String) (d : FsPath) :
    d ∈ (mkdirp (p ++ [x]) (mkdirp p fs)).dirs ↔ (d ∈ fs.dirs ∨ d <+: p ++ [x]) := by
  simp only [mkdirp, List.mem_append, mem_prefixesOf]
  constructor
  · rintro (h | h | h)
    · exact Or.inr h
    · exact Or.inr (h.trans (List.prefix_append p [x]))
    · exact Or.inl h
  · rintro (h | h)
    · exact Or.inr (Or.inr h)
    · exact Or.inl h

/-- Claim C9, counterexample: `get_template_path` is a read operation, yet
on a filesystem with no directories at all it creates the project and
template directories (via `_get_template_dir`): afterwards
`<root>/p/template` exists although it did not before the call. -/
theorem claim9_counterexample :
    (["p", "template"] : FsPath) ∈ (get_template_path "p" (FS.mk [] [] [])).2.dirs ∧
    (["p", "template"] : FsPath) ∉ (FS.mk [] [] [] : FS).dirs := by
  constructor
  · decide
  · decide

/-- Claim C9, amended: `file_exists` and `delete_page_image_version`
create no directory (the former does not change the state at all, the
latter leaves `dirs` unchanged); but `get_template_path`,
`delete_template` and `delete_page_image` do create their category
directory chain on demand: afterwards the directories are exactly the old
ones plus every prefix of the category directory. -/
theorem claim9_lazy_directory_creation (fs : FS) (rel : FsPath)
    (project_id page_id : String) :
    ((file_exists rel fs).2 = fs) ∧
    ((delete_page_image_version rel fs).2.dirs = fs.dirs) ∧
    (∀ d, d ∈ (get_template_path project_id fs).2.dirs ↔
        (d ∈ fs.dirs ∨ d <+: (fs.root ++ [project_id]) ++ ["template"])) ∧
    (∀ d, d ∈ (delete_template project_id fs).2.dirs ↔
        (d ∈ fs.dirs ∨ d <+: (fs.root ++ [project_id]) ++ ["template"])) ∧
    (∀ d, d ∈ (delete_page_image project_id page_id fs).2.dirs ↔
        (d ∈ fs.dirs ∨ d <+: (fs.root ++ [project_id]) ++ ["pages"])) := by
  refine ⟨rfl, ?_, ?_, ?_, ?_⟩
  · rw [delete_page_image_version_eq]
    by_cases hf : isFile fs (fs.root ++ rel) = true
    · rw [if_pos hf]
    · rw [if_neg hf]
  · exact fun d => mem_two_mkdirp fs (fs.root ++ [project_id]) "template" d
  · exact fun d => mem_two_mkdirp fs (fs.root ++ [project_id]) "template" d
  · exact fun d => mem_two_mkdirp fs (fs.root ++ [project_id]) "pages" d
